import Mathlib

/-!
Shallow embedding of the ELMS leave-management backend
(`src/backend/app/legacy_main.py`; `src/backend/app/services/leave_service.py` and
`src/backend/app/utils/helpers.py` contain identical copies of the workflow and
helper functions, so a single embedding covers both cited sources).

Modelling conventions:
* Calendar dates are proleptic-Gregorian ordinals (`Nat`), exactly as in Python's
  `date.toordinal`: ordinal 1 is 0001-01-01, a Monday, so
  `weekday d = (d - 1) % 7` (Monday = 0 ... Sunday = 6) agrees with
  `date.weekday()`, and `yearOf` is the year component of CPython's
  `datetime._ord2ymd` cycle decomposition (`date.year`).
* Day quantities (`Float` columns in the source) are `ℚ`: the spec describes them
  as non-negative reals and every value the program produces is an integer count
  or a quota, so no claim concerns float rounding.
* The SQLAlchemy session is a `DB` record of lists: `query(...).first()` is
  `List.find?`, `.all()` is `List.filter`, mutating a fetched row in place is
  `updateFirst` (the first matching row is exactly the one `first()` returned),
  and `db.add` is list append.
* A raised `HTTPException` / `ValueError` aborts the handler before
  `db.commit()`; the `get_db` dependency then closes the session, rolling the
  open transaction back, so a failing operation is `.error e` and produces no
  new state.
* Timestamp columns (`created_at`, `updated_at`, `approved_at`) and fields the
  workflow code never reads (emails, names, password hashes, holiday names) are
  not modelled; no claim mentions them.
-/

namespace ELMS

/-- Python `date.weekday()` on an ordinal: Monday = 0 ... Sunday = 6
(ordinal 1, 0001-01-01, is a Monday). -/
def weekday (d : Nat) : Nat := (d - 1) % 7

/-- Year component of CPython's `datetime._ord2ymd` (the value of `date.year`
for the date with this ordinal). -/
def yearOf (ordinal : Nat) : Nat :=
  let n := ordinal - 1
  let n400 := n / 146097
  let r1 := n % 146097
  let n100 := r1 / 36524
  let r2 := r1 % 36524
  let n4 := r2 / 1461
  let r3 := r2 % 1461
  let n1 := r3 / 365
  let year := n400 * 400 + 1 + n100 * 100 + n4 * 4 + n1
  if n1 = 4 ∨ n100 = 4 then year - 1 else year

/-- Roles from `UserRole` in `schemas/enums.py`. -/
inductive UserRole
  | employee
  | manager
  | hrAdmin
deriving DecidableEq

/-- Statuses from `RequestStatus` in `schemas/enums.py`. -/
inductive RequestStatus
  | pending
  | approved
  | rejected
  | cancelled
deriving DecidableEq

/-- Statuses from `ApprovalStatus` in `schemas/enums.py`. -/
inductive ApprovalStatus
  | pending
  | approved
  | rejected
deriving DecidableEq

/-- Row of the `users` table (fields the workflow engine reads).
`manager_id` is `none` for SQL NULL; the source tests it with Python
truthiness and ids are positive, so `Option` is faithful. -/
structure User where
  id : Nat
  role : UserRole
  manager_id : Option Nat
  is_active : Bool
deriving DecidableEq

/-- Row of the `leave_types` table (fields the five core operations read). -/
structure LeaveType where
  id : Nat
  annual_quota : ℚ
  is_active : Bool
deriving DecidableEq

/-- Row of the `leave_balances` table. `pending_days` is the reserved amount. -/
structure LeaveBalance where
  user_id : Nat
  leave_type_id : Nat
  year : Nat
  total_days : ℚ
  used_days : ℚ
  pending_days : ℚ
deriving DecidableEq

/-- Derived property `LeaveBalance.available_days` (legacy_main.py lines 107-109). -/
def LeaveBalance.available_days (b : LeaveBalance) : ℚ :=
  b.total_days - b.used_days - b.pending_days

/-- Row of the `leave_requests` table. -/
structure LeaveRequest where
  id : Nat
  user_id : Nat
  leave_type_id : Nat
  start_date : Nat
  end_date : Nat
  total_days : ℚ
  reason : Option String
  status : RequestStatus
deriving DecidableEq

/-- Row of the `approval_workflow` table. -/
structure ApprovalWorkflow where
  leave_request_id : Nat
  approver_id : Nat
  approval_level : Nat
  status : ApprovalStatus
  comments : Option String
deriving DecidableEq

/-- Row of the `delegations` table. -/
structure Delegation where
  delegator_id : Nat
  delegate_id : Nat
  start_date : Nat
  end_date : Nat
  is_active : Bool
deriving DecidableEq

/-- Row of the `holidays` table (only the `date` column is ever read). -/
structure Holiday where
  date : Nat
deriving DecidableEq

/-- The relational store as seen by one handler invocation. -/
structure DB where
  users : List User
  leave_types : List LeaveType
  balances : List LeaveBalance
  requests : List LeaveRequest
  workflows : List ApprovalWorkflow
  delegations : List Delegation
  holidays : List Holiday
deriving DecidableEq

/-- Distinguishable failures, one per distinct `HTTPException` detail /
`ValueError` raised by the embedded handlers. -/
inductive Err
  | invalidRange
  | requestNotFound
  | noPendingApproval
  | outOfOrderApproval
  | invalidDateRange
  | pastDateNotAllowed
  | zeroWorkingDays
  | overlappingRequest
  | balanceNotFound
  | insufficientBalance
  | notCancellable
  | pastLeaveCancellation
  | forbidden
  | notPending
deriving DecidableEq

instance {ε α : Type} [DecidableEq ε] [DecidableEq α] : DecidableEq (Except ε α) := by
  intro x y
  cases x with
  | ok a =>
    cases y with
    | ok b =>
      exact if h : a = b then .isTrue (by rw [h])
        else .isFalse (by intro hc; injection hc; contradiction)
    | error b => exact .isFalse (by intro hc; exact Except.noConfusion hc)
  | error a =>
    cases y with
    | ok b => exact .isFalse (by intro hc; exact Except.noConfusion hc)
    | error b =>
      exact if h : a = b then .isTrue (by rw [h])
        else .isFalse (by intro hc; injection hc; contradiction)

/-- In-place mutation of the row returned by `query(...).first()`: rewrite the
first list element satisfying `p` with `f`, leave everything else alone. -/
def updateFirst (p : α → Bool) (f : α → α) : List α → List α
  | [] => []
  | x :: xs => if p x then f x :: xs else x :: updateFirst p f xs

/-- The `while current_date <= end_date` loop body of `calculate_working_days`
(helpers.py lines 25-32): count days that are neither Saturday/Sunday nor in
the holiday-date set. -/
def workingDaysLoop (current_date end_date : Nat) (holiday_dates : List Nat) : Nat :=
  if _h : current_date ≤ end_date then
    (if weekday current_date < 5 ∧ current_date ∉ holiday_dates then 1 else 0)
      + workingDaysLoop (current_date + 1) end_date holiday_dates
  else 0
termination_by end_date + 1 - current_date
decreasing_by omega

/-- Embedding of `calculate_working_days` (helpers.py lines 11-34): raises
`ValueError` when `start_date > end_date`, otherwise counts working days in the
inclusive range, excluding weekends and holidays queried from the store, and
returns the count as a (real) number. -/
def calculate_working_days (start_date end_date : Nat) (holidays : List Holiday) :
    Except Err ℚ :=
  if start_date > end_date then .error .invalidRange
  else
    .ok ((workingDaysLoop start_date end_date
      ((holidays.filter fun hd => decide (start_date ≤ hd.date ∧ hd.date ≤ end_date)).map
        (fun hd => hd.date)) : ℕ) : ℚ)

/-- Specification-side count for the working-days claim: the number of dates in
the inclusive range that are neither a Saturday nor a Sunday nor present in the
holiday set. -/
def specWorkingDays (start_date end_date : Nat) (holiday_dates : List Nat) : Nat :=
  ((Finset.Icc start_date end_date).filter
    (fun d => weekday d < 5 ∧ d ∉ holiday_dates)).card

theorem workingDaysLoop_eq_spec (holiday_dates : List Nat) :
    ∀ n s e, e + 1 - s = n →
      workingDaysLoop s e holiday_dates = specWorkingDays s e holiday_dates := by
  intro n
  induction n with
  | zero =>
    intro s e hn
    have hse : e < s := by omega
    rw [workingDaysLoop]
    simp only [specWorkingDays]
    rw [Finset.Icc_eq_empty (by omega)]
    simp [Nat.not_le.mpr hse]
  | succ k ih =>
    intro s e hn
    by_cases hse : s ≤ e
    · rw [workingDaysLoop]
      simp only [hse, dif_pos, if_pos]
      have hrec := ih (s + 1) e (by omega)
      rw [hrec]
      simp only [specWorkingDays]
      have hicc : Finset.Icc s e = insert s (Finset.Icc (s + 1) e) := by
        rw [Nat.Icc_succ_left, Finset.Ioc_insert_left hse]
      rw [hicc, Finset.filter_insert]
      by_cases hp : weekday s < 5 ∧ s ∉ holiday_dates
      · rw [if_pos hp, if_pos hp, Finset.card_insert_of_not_mem]
        · omega
        · intro hmem
          have := (Finset.mem_filter.mp hmem).1
          simp only [Finset.mem_Icc] at this
          omega
      · rw [if_neg hp, if_neg hp]
        omega
    · rw [workingDaysLoop]
      simp only [hse, dif_neg]
      simp only [specWorkingDays]
      rw [Finset.Icc_eq_empty (by omega)]
      simp

/-- Query `ApprovalWorkflow` rows by request id + approver id + pending status
(the `workflow` lookup in `process_approval`, leave_service.py lines 101-105). -/
def findPendingStep (workflows : List ApprovalWorkflow) (rid aid : Nat) :
    Option ApprovalWorkflow :=
  workflows.find? fun w =>
    decide (w.leave_request_id = rid ∧ w.approver_id = aid ∧
      w.status = ApprovalStatus.pending)

/-- The `previous_levels` query of `process_approval` (lines 114-118): steps of
the same request at a strictly lower level whose status is not Approved. -/
def blockingSteps (workflows : List ApprovalWorkflow) (rid level : Nat) :
    List ApprovalWorkflow :=
  workflows.filter fun w =>
    decide (w.leave_request_id = rid ∧ w.approval_level < level ∧
      w.status ≠ ApprovalStatus.approved)

/-- The `remaining_approvals` query of `process_approval` (lines 147-150): steps
of the same request at a strictly higher level. -/
def higherSteps (workflows : List ApprovalWorkflow) (rid level : Nat) :
    List ApprovalWorkflow :=
  workflows.filter fun w =>
    decide (w.leave_request_id = rid ∧ level < w.approval_level)

/-- Query a `LeaveRequest` row by id. -/
def findRequest (requests : List LeaveRequest) (rid : Nat) : Option LeaveRequest :=
  requests.find? fun r => decide (r.id = rid)

/-- The `LeaveBalance` lookup by (user, leave type, year) repeated throughout
the source. -/
def findBalance (balances : List LeaveBalance) (uid tid year : Nat) :
    Option LeaveBalance :=
  balances.find? fun b =>
    decide (b.user_id = uid ∧ b.leave_type_id = tid ∧ b.year = year)

/-- In-place mutation of the balance row returned by the (user, leave type,
year) lookup; a missing row (`if balance:` in the source) leaves the list
unchanged because `updateFirst` finds no match. -/
def updateBalance (balances : List LeaveBalance) (uid tid year : Nat)
    (f : LeaveBalance → LeaveBalance) : List LeaveBalance :=
  updateFirst
    (fun b => decide (b.user_id = uid ∧ b.leave_type_id = tid ∧ b.year = year))
    f balances

/-- Embedding of `check_overlapping_requests` (helpers.py lines 37-57). -/
def check_overlapping_requests (requests : List LeaveRequest)
    (user_id start_date end_date : Nat) (exclude_request_id : Option Nat) : Bool :=
  requests.any fun r =>
    decide (r.user_id = user_id) &&
    (decide (r.status = RequestStatus.pending) ||
      decide (r.status = RequestStatus.approved)) &&
    decide (r.start_date ≤ end_date) && decide (start_date ≤ r.end_date) &&
    (match exclude_request_id with
     | some i => decide (r.id ≠ i)
     | none => true)

/-- Embedding of `get_active_delegate` (helpers.py lines 60-71). -/
def get_active_delegate (delegations : List Delegation)
    (approver_id approval_date : Nat) : Option Nat :=
  (delegations.find? fun d =>
      decide (d.delegator_id = approver_id) && d.is_active &&
      decide (d.start_date ≤ approval_date) &&
      decide (approval_date ≤ d.end_date)).map
    fun d => d.delegate_id

/-- The `User.role == HR_ADMIN, User.is_active == True ... .first()` query used
by chain construction. -/
def firstActiveHrAdmin (users : List User) : Option User :=
  users.find? fun u => decide (u.role = UserRole.hrAdmin) && u.is_active

/-- Chain construction core of `create_approval_workflow` (leave_service.py
lines 13-76): the list of `ApprovalWorkflow` rows added for `leave_request`,
in insertion order, with the source's running `approval_level` counter. -/
def buildChain (users : List User) (user : User) (total_days : ℚ) (rid : Nat) :
    List ApprovalWorkflow :=
  if user.role = UserRole.manager then
    match firstActiveHrAdmin users with
    | some hr_admin => [⟨rid, hr_admin.id, 1, ApprovalStatus.pending, none⟩]
    | none => []
  else
    let managerPart : List ApprovalWorkflow × Nat :=
      match user.manager_id with
      | none => ([], 1)
      | some mid =>
        let step1 : ApprovalWorkflow := ⟨rid, mid, 1, ApprovalStatus.pending, none⟩
        match users.find? fun u => decide (u.id = mid) with
        | some manager =>
          match manager.manager_id with
          | some mmid => ([step1, ⟨rid, mmid, 2, ApprovalStatus.pending, none⟩], 3)
          | none => ([step1], 2)
        | none => ([step1], 2)
    if total_days > 5 then
      match firstActiveHrAdmin users with
      | some hr_admin =>
        managerPart.1 ++ [⟨rid, hr_admin.id, managerPart.2, ApprovalStatus.pending, none⟩]
      | none => managerPart.1
    else managerPart.1

/-- Embedding of `create_approval_workflow` (leave_service.py lines 13-76).
The `leave_request.user` relationship join cannot miss (foreign key); the
`none` arm is unreachable for rows created by `create_leave_request` and is
modelled as adding no steps. -/
def create_approval_workflow (db : DB) (leave_request : LeaveRequest) : DB :=
  match db.users.find? fun u => decide (u.id = leave_request.user_id) with
  | none => db
  | some user =>
    {db with workflows :=
      db.workflows ++ buildChain db.users user leave_request.total_days leave_request.id}

/-- Embedding of `process_approval` (leave_service.py lines 79-168). `today` is
`date.today()` at decision time. -/
def process_approval (db : DB) (leave_request_id approver_id : Nat) (approve : Bool)
    (comments : Option String) (today : Nat) : Except Err DB :=
  match findRequest db.requests leave_request_id with
  | none => .error .requestNotFound
  | some leave_request =>
    -- `effective_approver_id` is computed in the source (lines 97-98) and never
    -- read afterwards; it is kept here exactly as dead as it is there.
    let delegate_id := get_active_delegate db.delegations approver_id today
    let effective_approver_id := delegate_id.getD approver_id
    match findPendingStep db.workflows leave_request_id approver_id with
    | none => .error .noPendingApproval
    | some workflow =>
      if blockingSteps db.workflows leave_request_id workflow.approval_level ≠ [] then
        .error .outOfOrderApproval
      else
        let workflows1 := updateFirst
          (fun w => decide (w.leave_request_id = leave_request_id ∧
            w.approver_id = approver_id ∧ w.status = ApprovalStatus.pending))
          (fun w => {w with
            status := if approve then ApprovalStatus.approved else ApprovalStatus.rejected,
            comments := comments})
          db.workflows
        if approve = false then
          .ok {db with
            workflows := workflows1,
            requests := updateFirst (fun r => decide (r.id = leave_request_id))
              (fun r => {r with status := RequestStatus.rejected}) db.requests,
            balances := updateBalance db.balances leave_request.user_id
              leave_request.leave_type_id (yearOf leave_request.start_date)
              (fun b => {b with
                pending_days := b.pending_days - leave_request.total_days})}
        else
          if higherSteps workflows1 leave_request_id workflow.approval_level = [] then
            .ok {db with
              workflows := workflows1,
              requests := updateFirst (fun r => decide (r.id = leave_request_id))
                (fun r => {r with status := RequestStatus.approved}) db.requests,
              balances := updateBalance db.balances leave_request.user_id
                leave_request.leave_type_id (yearOf leave_request.start_date)
                (fun b => {b with
                  used_days := b.used_days + leave_request.total_days,
                  pending_days := b.pending_days - leave_request.total_days})}
          else .ok {db with workflows := workflows1}

/-- Embedding of `cancel_leave_request` (legacy_main.py lines 1134-1175).
`current_user_id` is the authenticated caller, `today` is `date.today()`. -/
def cancel_leave_request (db : DB) (request_id current_user_id today : Nat) :
    Except Err DB :=
  match findRequest db.requests request_id with
  | none => .error .requestNotFound
  | some leave_request =>
    if leave_request.user_id ≠ current_user_id then .error .forbidden
    else if leave_request.status ≠ RequestStatus.pending ∧
        leave_request.status ≠ RequestStatus.approved then .error .notCancellable
    else if leave_request.start_date < today then .error .pastLeaveCancellation
    else
      let old_status := leave_request.status
      .ok {db with
        requests := updateFirst (fun r => decide (r.id = request_id))
          (fun r => {r with status := RequestStatus.cancelled}) db.requests,
        balances := updateBalance db.balances leave_request.user_id
          leave_request.leave_type_id (yearOf leave_request.start_date)
          (fun b =>
            if old_status = RequestStatus.pending then
              {b with pending_days := b.pending_days - leave_request.total_days}
            else if old_status = RequestStatus.approved then
              {b with used_days := b.used_days - leave_request.total_days}
            else b)}

/-- Embedding of `update_leave_request` (legacy_main.py lines 1057-1132). -/
def update_leave_request (db : DB) (request_id current_user_id : Nat)
    (new_start new_end : Option Nat) (new_reason : Option String) : Except Err DB :=
  match findRequest db.requests request_id with
  | none => .error .requestNotFound
  | some leave_request =>
    if leave_request.user_id ≠ current_user_id then .error .forbidden
    else if leave_request.status ≠ RequestStatus.pending then .error .notPending
    else if new_start.isSome || new_end.isSome then
      let start_date := new_start.getD leave_request.start_date
      let end_date := new_end.getD leave_request.end_date
      if start_date > end_date then .error .invalidDateRange
      else
        match calculate_working_days start_date end_date db.holidays with
        | .error e => .error e
        | .ok new_total_days =>
          if check_overlapping_requests db.requests current_user_id start_date end_date
              (some request_id) then .error .overlappingRequest
          else
            -- `request_data.reason is not None` keeps the new reason, else the
            -- old one; `Option.or` is exactly that conditional assignment.
            let setDates : LeaveRequest → LeaveRequest := fun r =>
              {r with start_date := start_date, end_date := end_date,
                      total_days := new_total_days,
                      reason := new_reason.or r.reason}
            match findBalance db.balances current_user_id leave_request.leave_type_id
                (yearOf start_date) with
            | some balance =>
              let balance1 := {balance with
                pending_days := balance.pending_days - leave_request.total_days}
              if balance1.available_days < new_total_days then .error .insufficientBalance
              else
                .ok {db with
                  balances := updateBalance db.balances current_user_id
                    leave_request.leave_type_id (yearOf start_date)
                    (fun b => {b with pending_days :=
                      b.pending_days - leave_request.total_days + new_total_days}),
                  requests := updateFirst (fun r => decide (r.id = request_id)) setDates
                    db.requests}
            | none =>
              .ok {db with
                requests := updateFirst (fun r => decide (r.id = request_id)) setDates
                  db.requests}
    else
      match new_reason with
      | some s =>
        let requests1 := updateFirst (fun r => decide (r.id = request_id))
          (fun r => {r with reason := some s}) db.requests
        .ok {db with requests := requests1}
      | none => .ok db

/-- Embedding of `create_leave_request` (legacy_main.py lines 875-951).
`new_id` is the autoincrement id the store assigns to the inserted row. -/
def create_leave_request (db : DB) (current_user_id leave_type_id : Nat)
    (start_date end_date : Nat) (reason : Option String) (today new_id : Nat) :
    Except Err DB :=
  if start_date > end_date then .error .invalidDateRange
  else if start_date < today then .error .pastDateNotAllowed
  else
    match calculate_working_days start_date end_date db.holidays with
    | .error e => .error e
    | .ok total_days =>
      if total_days = 0 then .error .zeroWorkingDays
      else if check_overlapping_requests db.requests current_user_id start_date end_date
          none then .error .overlappingRequest
      else
        match findBalance db.balances current_user_id leave_type_id (yearOf start_date) with
        | none => .error .balanceNotFound
        | some balance =>
          if balance.available_days < total_days then .error .insufficientBalance
          else
            let leave_request : LeaveRequest :=
              ⟨new_id, current_user_id, leave_type_id, start_date, end_date, total_days,
                reason, RequestStatus.pending⟩
            let db1 : DB := {db with
              requests := db.requests ++ [leave_request],
              balances := updateBalance db.balances current_user_id leave_type_id
                (yearOf start_date)
                (fun b => {b with pending_days := b.pending_days + total_days})}
            .ok (create_approval_workflow db1 leave_request)

/-- Embedding of `initialize_leave_balances` (legacy_main.py lines 836-870):
for every active user and active leave type without an existing balance row for
`year`, insert a fresh row with the type's annual quota and zero used/pending
days. The session has `autoflush=False`, so every existence check runs against
the pre-existing rows, which the single traversal below reproduces. -/
def initialize_leave_balances (db : DB) (year : Nat) : DB :=
  let users := db.users.filter fun u => u.is_active
  let leave_types := db.leave_types.filter fun t => t.is_active
  let new_balances := users.flatMap fun user =>
    leave_types.filterMap fun leave_type =>
      match findBalance db.balances user.id leave_type.id year with
      | some _ => none
      | none => some ⟨user.id, leave_type.id, year, leave_type.annual_quota, 0, 0⟩
  {db with balances := db.balances ++ new_balances}

theorem updateFirst_of_find?_eq_none {α} (p : α → Bool) (f : α → α) (l : List α)
    (h : l.find? p = none) : updateFirst p f l = l := by
  induction l with
  | nil => rfl
  | cons a as ih =>
    cases hpa : p a with
    | true => rw [List.find?_cons_of_pos _ hpa] at h; exact absurd h (by simp)
    | false =>
      rw [List.find?_cons_of_neg _ (by simp [hpa])] at h
      simp [updateFirst, hpa, ih h]

theorem updateFirst_decomp {α} (p : α → Bool) (f : α → α) (l : List α) (x : α)
    (h : l.find? p = some x) :
    ∃ l₁ l₂, l = l₁ ++ x :: l₂ ∧ (∀ y ∈ l₁, p y = false) ∧ p x = true ∧
      updateFirst p f l = l₁ ++ f x :: l₂ := by
  induction l with
  | nil => simp at h
  | cons a as ih =>
    cases hpa : p a with
    | true =>
      rw [List.find?_cons_of_pos _ hpa] at h
      obtain rfl : a = x := by injection h
      exact ⟨[], as, rfl, by simp, hpa, by simp [updateFirst, hpa]⟩
    | false =>
      rw [List.find?_cons_of_neg _ (by simp [hpa])] at h
      obtain ⟨l₁, l₂, hl, hl₁, hx, hu⟩ := ih h
      refine ⟨a :: l₁, l₂, by simp [hl], ?_, hx, by simp [updateFirst, hpa, hu]⟩
      intro y hy
      rcases List.mem_cons.mp hy with rfl | hy₁
      · exact hpa
      · exact hl₁ y hy₁

theorem find?_append_of_none {α} (p : α → Bool) (l₁ l₂ : List α)
    (h : ∀ y ∈ l₁, p y = false) : (l₁ ++ l₂).find? p = l₂.find? p := by
  induction l₁ with
  | nil => rfl
  | cons a as ih =>
    have ha : p a = false := h a (by simp)
    rw [List.cons_append, List.find?_cons_of_neg _ (by simp [ha])]
    exact ih fun y hy => h y (by simp [hy])

theorem find?_updateFirst_eq {α} (p : α → Bool) (f : α → α) (l : List α) (x : α)
    (h : l.find? p = some x) (hfx : p (f x) = true) :
    (updateFirst p f l).find? p = some (f x) := by
  obtain ⟨l₁, l₂, _, hl₁, _, hu⟩ := updateFirst_decomp p f l x h
  rw [hu, find?_append_of_none p l₁ _ hl₁, List.find?_cons_of_pos _ hfx]

theorem filter_updateFirst_eq {α} (p r : α → Bool) (f : α → α) (l : List α) (x : α)
    (h : l.find? p = some x) (hx : r x = false) (hfx : r (f x) = false) :
    (updateFirst p f l).filter r = l.filter r := by
  obtain ⟨l₁, l₂, hl, _, _, hu⟩ := updateFirst_decomp p f l x h
  rw [hu, hl, List.filter_append, List.filter_append,
    List.filter_cons_of_neg (by simp [hfx]), List.filter_cons_of_neg (by simp [hx])]

theorem mem_updateFirst {α} (p : α → Bool) (f : α → α) (l : List α) (y : α)
    (hy : y ∈ updateFirst p f l) :
    y ∈ l ∨ ∃ x, l.find? p = some x ∧ y = f x := by
  induction l with
  | nil => simp [updateFirst] at hy
  | cons a as ih =>
    cases hpa : p a with
    | true =>
      simp only [updateFirst, hpa, if_pos] at hy
      rcases List.mem_cons.mp hy with rfl | hy₁
      · exact Or.inr ⟨a, List.find?_cons_of_pos _ hpa, rfl⟩
      · exact Or.inl (List.mem_cons_of_mem a hy₁)
    | false =>
      simp only [updateFirst, hpa, Bool.false_eq_true, if_neg, not_false_eq_true] at hy
      rcases List.mem_cons.mp hy with rfl | hy₁
      · exact Or.inl (by simp)
      · rcases ih hy₁ with h₁ | ⟨x, hfind, hfx⟩
        · exact Or.inl (List.mem_cons_of_mem a h₁)
        · exact Or.inr ⟨x, by rw [List.find?_cons_of_neg _ (by simp [hpa])]; exact hfind, hfx⟩

/-- Invariant piece: every balance row has non-negative availability. -/
def balancesOK (db : DB) : Prop :=
  ∀ b ∈ db.balances, 0 ≤ b.available_days

/-- Invariant piece: every request row carries a non-negative chargeable-day
count (every stored `total_days` is a working-day count produced by
`calculate_working_days`). -/
def requestsOK (db : DB) : Prop :=
  ∀ r ∈ db.requests, 0 ≤ r.total_days

/-- Invariant piece: every leave type has a non-negative annual quota. The API
enforces this at the boundary: `annual_quota: float = Field(gt=0)` on both the
create and update schemas (legacy_main.py lines 207, 216), and the seed data
uses positive quotas. -/
def quotasOK (db : DB) : Prop :=
  ∀ t ∈ db.leave_types, 0 ≤ t.annual_quota

/-- The state invariant the balance claims quantify over. -/
def Inv (db : DB) : Prop :=
  balancesOK db ∧ requestsOK db ∧ quotasOK db

theorem calculate_working_days_eq_spec (s e : Nat) (holidays : List Holiday)
    (h : s ≤ e) :
    calculate_working_days s e holidays =
      .ok ((specWorkingDays s e (holidays.map fun hd => hd.date) : ℕ) : ℚ) := by
  unfold calculate_working_days
  rw [if_neg (by omega)]
  have hloop := workingDaysLoop_eq_spec
    ((holidays.filter fun hd => decide (s ≤ hd.date ∧ hd.date ≤ e)).map fun hd => hd.date)
    (e + 1 - s) s e rfl
  rw [hloop]
  have hsets : specWorkingDays s e
      ((holidays.filter fun hd => decide (s ≤ hd.date ∧ hd.date ≤ e)).map fun hd => hd.date) =
      specWorkingDays s e (holidays.map fun hd => hd.date) := by
    unfold specWorkingDays
    apply congrArg
    apply Finset.filter_congr
    intro d hd
    simp only [Finset.mem_Icc] at hd
    constructor
    · rintro ⟨hw, hmem⟩
      refine ⟨hw, fun hall => hmem ?_⟩
      simp only [List.mem_map] at hall
      obtain ⟨x, hx, hxd⟩ := hall
      simp only [List.mem_map, List.mem_filter]
      exact ⟨x, ⟨hx, by simp [hxd]; omega⟩, hxd⟩
    · rintro ⟨hw, hmem⟩
      refine ⟨hw, fun hfil => hmem ?_⟩
      simp only [List.mem_map, List.mem_filter] at hfil
      obtain ⟨x, ⟨hx, _⟩, hxd⟩ := hfil
      exact List.mem_map.mpr ⟨x, hx, hxd⟩
  rw [hsets]

theorem calculate_working_days_nonneg (s e : Nat) (holidays : List Holiday) (q : ℚ)
    (h : calculate_working_days s e holidays = .ok q) : 0 ≤ q := by
  unfold calculate_working_days at h
  by_cases hse : s > e
  · rw [if_pos hse] at h; exact absurd h (by simp)
  · rw [if_neg hse] at h
    obtain rfl : ((workingDaysLoop s e _ : ℕ) : ℚ) = q := by
      injection h
    exact Nat.cast_nonneg _

/-- Claim C9: for every `start ≤ end` the chargeable-days computation returns,
as a number, exactly the count of dates in the inclusive range that are neither
a Saturday nor a Sunday nor present in the holiday set (so Monday 2025-06-02
through Friday 2025-06-06 with no holidays yields 5 and Saturday 2025-06-07
through Sunday 2025-06-08 yields 0), it fails whenever `start > end`, and
creating a request whose range yields 0 chargeable days fails ZeroWorkingDays
rather than being accepted. -/
theorem C9_chargeable_days :
    (∀ s e holidays, e < s →
      calculate_working_days s e holidays = .error Err.invalidRange) ∧
    (∀ s e holidays, s ≤ e →
      calculate_working_days s e holidays =
        .ok ((specWorkingDays s e (holidays.map fun hd => hd.date) : ℕ) : ℚ)) ∧
    calculate_working_days 739404 739408 [] = .ok 5 ∧
    calculate_working_days 739409 739410 [] = .ok 0 ∧
    (∀ db uid tid s e reason today nid, s ≤ e → today ≤ s →
      specWorkingDays s e (db.holidays.map fun hd => hd.date) = 0 →
      create_leave_request db uid tid s e reason today nid =
        .error Err.zeroWorkingDays) := by
  refine ⟨?_, ?_, ?_, ?_, ?_⟩
  · intro s e holidays hlt
    unfold calculate_working_days
    rw [if_pos (by omega)]
  · intro s e holidays hle
    exact calculate_working_days_eq_spec s e holidays hle
  · rw [calculate_working_days_eq_spec 739404 739408 [] (by decide)]
    have h5 : specWorkingDays 739404 739408 (([] : List Holiday).map fun hd => hd.date) = 5 := by
      decide
    rw [h5]; norm_num
  · rw [calculate_working_days_eq_spec 739409 739410 [] (by decide)]
    have h0 : specWorkingDays 739409 739410 (([] : List Holiday).map fun hd => hd.date) = 0 := by
      decide
    rw [h0]; norm_num
  · intro db uid tid s e reason today nid hse htoday hzero
    unfold create_leave_request
    rw [if_neg (by omega), if_neg (by omega),
      calculate_working_days_eq_spec s e db.holidays hse]
    simp only [hzero]
    rw [if_pos (by norm_num)]

/-- Claim C9 witness: a concrete weekend-only request is rejected with
ZeroWorkingDays. -/
theorem C9_chargeable_days_witness :
    create_leave_request
      ⟨[], [], [⟨1, 1, 2025, 20, 0, 0⟩],
        [], [], [], []⟩ 1 1 739409 739410 none 739300 1 =
      .error Err.zeroWorkingDays :=
  C9_chargeable_days.2.2.2.2
    ⟨[], [], [⟨1, 1, 2025, 20, 0, 0⟩], [], [], [], []⟩
    1 1 739409 739410 none 739300 1 (by decide) (by decide) (by decide)

/-- Requester for claim C10: an active HR admin with no manager set, who is the
only (hence first) active HR admin in the directory. -/
def hrRequesterC10 : User := ⟨7, UserRole.hrAdmin, none, true⟩

/-- Store for claim C10: the HR admin above owns a pending 6-chargeable-day
request. -/
def dbC10 : DB :=
  ⟨[hrRequesterC10], [], [⟨7, 1, 2025, 20, 0, 6⟩],
    [⟨1, 7, 1, 739404, 739411, 6, none, RequestStatus.pending⟩], [], [], []⟩

/-- Claim C10: chain construction routes an HR-admin requester through the
non-Manager branch, so an active HR-admin requester with no manager, more than
5 chargeable days, and who is the first active HR admin found, gets a chain
consisting of a single step whose approver is the requester themselves. -/
theorem C10_self_approval :
    (create_approval_workflow dbC10
      ⟨1, 7, 1, 739404, 739411, 6, none, RequestStatus.pending⟩).workflows =
        [⟨1, hrRequesterC10.id, 1, ApprovalStatus.pending, none⟩] ∧
    hrRequesterC10.role ≠ UserRole.manager ∧
    (⟨1, 7, 1, 739404, 739411, 6, none, RequestStatus.pending⟩ :
      LeaveRequest).user_id = hrRequesterC10.id := by
  refine ⟨?_, by decide, by decide⟩
  decide

/-- Store for claim C3's failing input: user 1 owns pending request 1
(2025-06-02 to 2025-06-06, 5 chargeable days, reserved in the balance), and the
request's chain has a single pending step for approver 2. -/
def dbC3 : DB :=
  ⟨[], [], [⟨1, 1, 2025, 20, 0, 5⟩],
    [⟨1, 1, 1, 739404, 739408, 5, none, RequestStatus.pending⟩],
    [⟨1, 2, 1, ApprovalStatus.pending, none⟩], [], []⟩

/-- Claim C3, evaluated at the failing input: the owner cancels the pending
future-dated request (status becomes Cancelled and the reservation is
released), and the approver can then still approve the untouched pending step,
which moves the request from Cancelled to Approved and charges the balance
again — `process_approval` never checks the request status, so the
Cancelled-to-Approved transition the spec forbids succeeds instead of failing. -/
theorem C3_cancelled_to_approved :
    (cancel_leave_request dbC3 1 1 739300).map
        (fun d => (findRequest d.requests 1).map fun r => r.status) =
      .ok (some RequestStatus.cancelled) ∧
    ((cancel_leave_request dbC3 1 1 739300).bind fun d =>
        process_approval d 1 2 true none 739300).map
        (fun d => (findRequest d.requests 1).map fun r => r.status) =
      .ok (some RequestStatus.approved) := by
  constructor
  · decide
  · decide

/-- Store for claim C6's counterexample: pending request 1 has a single pending
step keyed by approver 2, and approver 2 has an active delegation to user 5
covering the decision date 739300. -/
def dbC6 : DB :=
  ⟨[], [], [⟨1, 1, 2025, 20, 0, 5⟩],
    [⟨1, 1, 1, 739404, 739408, 5, none, RequestStatus.pending⟩],
    [⟨1, 2, 1, ApprovalStatus.pending, none⟩],
    [⟨2, 5, 739200, 739500, true⟩], []⟩

/-- Claim C6 counterexample: although approver 2 has an active delegation to
user 5 on the decision date and a pending step keyed by the original approver 2
exists, the delegate's decision call fails NoPendingApproval — refuting both
that a delegate's decision on the delegator's behalf succeeds against the
delegator's step, and that NoPendingApproval occurs only when no pending step
for the original approver exists. -/
theorem C6_counterexample :
    get_active_delegate dbC6.delegations 2 739300 = some 5 ∧
    (findPendingStep dbC6.workflows 1 2).isSome = true ∧
    process_approval dbC6 1 5 true none 739300 = .error Err.noPendingApproval := by
  refine ⟨by decide, by decide, by decide⟩

/-- Claim C6 amended: the delegation lookup in `process_approval` has no effect
on step matching — the call fails NoPendingApproval exactly when no pending
step keyed by the calling `approver_id` itself exists on the request,
regardless of any delegation; a delegate's call is matched only against steps
keyed by the delegate, never against the delegator's step. -/
theorem C6_delegation_inert (db : DB) (rid aid today : Nat) (approve : Bool)
    (comments : Option String) (lr : LeaveRequest)
    (hreq : findRequest db.requests rid = some lr) :
    process_approval db rid aid approve comments today = .error Err.noPendingApproval ↔
      findPendingStep db.workflows rid aid = none := by
  unfold process_approval
  rw [hreq]
  cases hstep : findPendingStep db.workflows rid aid with
  | none => simp
  | some wf =>
    simp only [Option.some.injEq]
    constructor
    · intro h
      by_cases hblock : blockingSteps db.workflows rid wf.approval_level ≠ []
      · rw [if_pos hblock] at h
        exact absurd h (by simp)
      · rw [if_neg hblock] at h
        cases happ : approve with
        | false =>
          rw [happ] at h
          rw [if_pos rfl] at h
          exact absurd h (by simp)
        | true =>
          rw [happ] at h
          rw [if_neg (by simp)] at h
          by_cases hrem : higherSteps (updateFirst
              (fun w => decide (w.leave_request_id = rid ∧ w.approver_id = aid ∧
                w.status = ApprovalStatus.pending))
              (fun w => {w with
                status := if true then ApprovalStatus.approved else ApprovalStatus.rejected,
                comments := comments}) db.workflows) rid wf.approval_level = []
          · rw [if_pos hrem] at h
            exact absurd h (by simp)
          · rw [if_neg hrem] at h
            exact absurd h (by simp)
    · intro h
      exact absurd h (by simp)

/-- Claim C6 witness for the amended theorem, at the counterexample
configuration: delegate 5's call fails NoPendingApproval because no pending
step is keyed by 5. -/
theorem C6_delegation_inert_witness :
    process_approval dbC6 1 5 true none 739300 = .error Err.noPendingApproval :=
  (C6_delegation_inert dbC6 1 5 739300 true none
    ⟨1, 1, 1, 739404, 739408, 5, none, RequestStatus.pending⟩ (by decide)).mpr (by decide)

/-- Claim C5: a decision on a workflow step fails OutOfOrderApproval whenever
any step of the same request with a strictly lower approval level has a status
other than Approved (Pending or Rejected both block); the failure aborts before
any mutation, so the step, the request and the balance are unchanged (an error
result carries no new state). -/
theorem C5_out_of_order (db : DB) (rid aid today : Nat) (approve : Bool)
    (comments : Option String) (lr : LeaveRequest) (wf : ApprovalWorkflow)
    (hreq : findRequest db.requests rid = some lr)
    (hwf : findPendingStep db.workflows rid aid = some wf)
    (hblock : ∃ w ∈ db.workflows, w.leave_request_id = rid ∧
      w.approval_level < wf.approval_level ∧ w.status ≠ ApprovalStatus.approved) :
    process_approval db rid aid approve comments today = .error Err.outOfOrderApproval := by
  have hne : blockingSteps db.workflows rid wf.approval_level ≠ [] := by
    obtain ⟨w, hw, h1, h2, h3⟩ := hblock
    apply List.ne_nil_of_mem (a := w)
    unfold blockingSteps
    rw [List.mem_filter]
    exact ⟨hw, by simp [h1, h2, h3]⟩
  unfold process_approval
  simp only [hreq, hwf]
  rw [if_pos hne]

/-- Store for claim C5's witness: request 1 with a two-level chain, both steps
pending. -/
def dbC5 : DB :=
  ⟨[], [], [⟨1, 1, 2025, 20, 0, 5⟩],
    [⟨1, 1, 1, 739404, 739408, 5, none, RequestStatus.pending⟩],
    [⟨1, 2, 1, ApprovalStatus.pending, none⟩, ⟨1, 3, 2, ApprovalStatus.pending, none⟩],
    [], []⟩

/-- Claim C5 witness: deciding the level-2 step while level 1 is still pending
fails OutOfOrderApproval. -/
theorem C5_out_of_order_witness :
    process_approval dbC5 1 3 true none 739300 = .error Err.outOfOrderApproval :=
  C5_out_of_order dbC5 1 3 739300 true none
    ⟨1, 1, 1, 739404, 739408, 5, none, RequestStatus.pending⟩
    ⟨1, 3, 2, ApprovalStatus.pending, none⟩ (by decide) (by decide)
    ⟨⟨1, 2, 1, ApprovalStatus.pending, none⟩, by decide, by decide⟩

/-- Store for claim C7's counterexample: user 1 owns pending request 1 whose
leave starts exactly on the decision day 739404. -/
def dbC7x : DB :=
  ⟨[], [], [⟨1, 1, 2025, 20, 0, 5⟩],
    [⟨1, 1, 1, 739404, 739408, 5, none, RequestStatus.pending⟩], [], [], []⟩

/-- Claim C7 counterexample: cancelling a request whose start date equals today
succeeds, although that start date is not in the future — refuting that a
cancel succeeds only for future-dated requests (the code only rejects
`start_date < today`). -/
theorem C7_counterexample :
    (findRequest dbC7x.requests 1).map (fun r => (r.status, r.start_date)) =
      some (RequestStatus.pending, 739404) ∧
    ¬ 739404 < 739404 ∧
    (cancel_leave_request dbC7x 1 1 739404).isOk = true := by
  refine ⟨by decide, by decide, by decide⟩

/-- Claim C7 amended: cancelling succeeds only when the request status is
Pending or Approved and its start date is today or later (start ≥ today; only
strictly past start dates fail PastLeaveCancellation); non-cancellable statuses
fail NotCancellable; on success the status becomes Cancelled and the chargeable
days are subtracted from the balance's pending days if the prior status was
Pending, or from its used days if it was Approved. -/
theorem C7_cancel (db : DB) (rid uid today : Nat) (lr : LeaveRequest) (b : LeaveBalance)
    (hreq : findRequest db.requests rid = some lr)
    (howner : lr.user_id = uid)
    (hbal : findBalance db.balances lr.user_id lr.leave_type_id
      (yearOf lr.start_date) = some b) :
    (lr.status ≠ RequestStatus.pending ∧ lr.status ≠ RequestStatus.approved →
      cancel_leave_request db rid uid today = .error Err.notCancellable) ∧
    ((lr.status = RequestStatus.pending ∨ lr.status = RequestStatus.approved) →
      lr.start_date < today →
      cancel_leave_request db rid uid today = .error Err.pastLeaveCancellation) ∧
    (lr.status = RequestStatus.pending → today ≤ lr.start_date →
      ∃ db', cancel_leave_request db rid uid today = .ok db' ∧
        findRequest db'.requests rid = some {lr with status := RequestStatus.cancelled} ∧
        findBalance db'.balances lr.user_id lr.leave_type_id (yearOf lr.start_date) =
          some {b with pending_days := b.pending_days - lr.total_days}) ∧
    (lr.status = RequestStatus.approved → today ≤ lr.start_date →
      ∃ db', cancel_leave_request db rid uid today = .ok db' ∧
        findRequest db'.requests rid = some {lr with status := RequestStatus.cancelled} ∧
        findBalance db'.balances lr.user_id lr.leave_type_id (yearOf lr.start_date) =
          some {b with used_days := b.used_days - lr.total_days}) := by
  refine ⟨?_, ?_, ?_, ?_⟩
  · intro hst
    unfold cancel_leave_request
    simp only [hreq]
    rw [if_neg (by simp [howner]), if_pos hst]
  · intro hst hpast
    unfold cancel_leave_request
    simp only [hreq]
    rw [if_neg (by simp [howner]), if_neg (by tauto), if_pos hpast]
  · intro hst htoday
    unfold cancel_leave_request
    simp only [hreq]
    rw [if_neg (by simp [howner]), if_neg (by simp [hst]), if_neg (by omega)]
    refine ⟨_, rfl, ?_, ?_⟩
    · unfold findRequest
      apply find?_updateFirst_eq _ _ _ lr hreq
      have hplr := List.find?_some hreq
      simpa using hplr
    · unfold findBalance updateBalance
      have hbal2 : List.find? (fun bb => decide (bb.user_id = lr.user_id ∧
          bb.leave_type_id = lr.leave_type_id ∧ bb.year = yearOf lr.start_date))
          db.balances = some b := hbal
      have hpb := List.find?_some hbal2
      have hstep := find?_updateFirst_eq
        (fun bb => decide (bb.user_id = lr.user_id ∧ bb.leave_type_id = lr.leave_type_id ∧
          bb.year = yearOf lr.start_date))
        (fun bb =>
          if lr.status = RequestStatus.pending then
            {bb with pending_days := bb.pending_days - lr.total_days}
          else if lr.status = RequestStatus.approved then
            {bb with used_days := bb.used_days - lr.total_days}
          else bb)
        db.balances b hbal2 (by simpa [hst] using hpb)
      rw [hstep]
      simp [hst]
  · intro hst htoday
    unfold cancel_leave_request
    simp only [hreq]
    rw [if_neg (by simp [howner]), if_neg (by simp [hst]), if_neg (by omega)]
    refine ⟨_, rfl, ?_, ?_⟩
    · unfold findRequest
      apply find?_updateFirst_eq _ _ _ lr hreq
      have hplr := List.find?_some hreq
      simpa using hplr
    · unfold findBalance updateBalance
      have hbal2 : List.find? (fun bb => decide (bb.user_id = lr.user_id ∧
          bb.leave_type_id = lr.leave_type_id ∧ bb.year = yearOf lr.start_date))
          db.balances = some b := hbal
      have hpb := List.find?_some hbal2
      have hstep := find?_updateFirst_eq
        (fun bb => decide (bb.user_id = lr.user_id ∧ bb.leave_type_id = lr.leave_type_id ∧
          bb.year = yearOf lr.start_date))
        (fun bb =>
          if lr.status = RequestStatus.pending then
            {bb with pending_days := bb.pending_days - lr.total_days}
          else if lr.status = RequestStatus.approved then
            {bb with used_days := bb.used_days - lr.total_days}
          else bb)
        db.balances b hbal2 (by simpa [hst] using hpb)
      rw [hstep]
      simp [hst]

/-- Store for claim C7's witness: an approved future-dated request. -/
def dbC7w : DB :=
  ⟨[], [], [⟨1, 1, 2025, 20, 5, 0⟩],
    [⟨1, 1, 1, 739404, 739408, 5, none, RequestStatus.approved⟩], [], [], []⟩

/-- Claim C7 witness: cancelling the approved future-dated request succeeds and
reverts its chargeable days from used days. -/
theorem C7_cancel_witness :
    ∃ db', cancel_leave_request dbC7w 1 1 739300 = .ok db' ∧
      findRequest db'.requests 1 =
        some ⟨1, 1, 1, 739404, 739408, 5, none, RequestStatus.cancelled⟩ ∧
      findBalance db'.balances 1 1 (yearOf 739404) =
        some {(⟨1, 1, 2025, 20, 5, 0⟩ : LeaveBalance) with used_days := (5 : ℚ) - 5} :=
  (C7_cancel dbC7w 1 1 739300
    ⟨1, 1, 1, 739404, 739408, 5, none, RequestStatus.approved⟩
    ⟨1, 1, 2025, 20, 5, 0⟩ (by decide) rfl (by decide)).2.2.2 rfl (by decide)

theorem higherSteps_updateFirst (workflows : List ApprovalWorkflow) (rid aid : Nat)
    (g : ApprovalWorkflow → ApprovalWorkflow) (wf : ApprovalWorkflow)
    (hg1 : (g wf).leave_request_id = wf.leave_request_id)
    (hg2 : (g wf).approval_level = wf.approval_level)
    (hfind : List.find? (fun w => decide (w.leave_request_id = rid ∧ w.approver_id = aid ∧
      w.status = ApprovalStatus.pending)) workflows = some wf) :
    higherSteps (updateFirst (fun w => decide (w.leave_request_id = rid ∧ w.approver_id = aid ∧
      w.status = ApprovalStatus.pending)) g workflows) rid wf.approval_level =
      higherSteps workflows rid wf.approval_level := by
  unfold higherSteps
  apply filter_updateFirst_eq _ _ _ _ wf hfind
  · simp
  · simp [hg1, hg2]

/-- Claim C1: for a pending request with a built chain, a successful approve
decision on the step with the highest approval level (no step at any higher
level exists) sets the request to Approved and moves the chargeable-day count
from reserved to used (used += total_days, pending -= total_days); a successful
reject decision at any level sets the request to Rejected and releases the
reservation (pending -= total_days) regardless of how many higher levels
remain, and all higher-level steps stay Pending. -/
theorem C1_terminal_decisions (db : DB) (rid aid today : Nat) (comments : Option String)
    (lr : LeaveRequest) (wf : ApprovalWorkflow) (b : LeaveBalance)
    (hreq : findRequest db.requests rid = some lr)
    (hst : lr.status = RequestStatus.pending)
    (hwf : findPendingStep db.workflows rid aid = some wf)
    (hgate : blockingSteps db.workflows rid wf.approval_level = [])
    (hbal : findBalance db.balances lr.user_id lr.leave_type_id
      (yearOf lr.start_date) = some b) :
    (higherSteps db.workflows rid wf.approval_level = [] →
      ∃ db', process_approval db rid aid true comments today = .ok db' ∧
        findRequest db'.requests rid = some {lr with status := RequestStatus.approved} ∧
        findBalance db'.balances lr.user_id lr.leave_type_id (yearOf lr.start_date) =
          some {b with used_days := b.used_days + lr.total_days,
                       pending_days := b.pending_days - lr.total_days}) ∧
    (∃ db', process_approval db rid aid false comments today = .ok db' ∧
      findRequest db'.requests rid = some {lr with status := RequestStatus.rejected} ∧
      findBalance db'.balances lr.user_id lr.leave_type_id (yearOf lr.start_date) =
        some {b with pending_days := b.pending_days - lr.total_days} ∧
      higherSteps db'.workflows rid wf.approval_level =
        higherSteps db.workflows rid wf.approval_level ∧
      ((∀ w ∈ db.workflows, w.leave_request_id = rid →
          wf.approval_level < w.approval_level → w.status = ApprovalStatus.pending) →
        ∀ w ∈ db'.workflows, w.leave_request_id = rid →
          wf.approval_level < w.approval_level → w.status = ApprovalStatus.pending)) := by
  have hwf2 : List.find? (fun w => decide (w.leave_request_id = rid ∧ w.approver_id = aid ∧
      w.status = ApprovalStatus.pending)) db.workflows = some wf := hwf
  have hbal2 : List.find? (fun bb => decide (bb.user_id = lr.user_id ∧
      bb.leave_type_id = lr.leave_type_id ∧ bb.year = yearOf lr.start_date))
      db.balances = some b := hbal
  have hplr := List.find?_some hreq
  have hpb := List.find?_some hbal2
  constructor
  · intro hhigher
    unfold process_approval
    simp only [hreq, hwf]
    rw [if_neg (by simp [hgate])]
    rw [if_neg (by simp)]
    rw [higherSteps_updateFirst db.workflows rid aid _ wf rfl rfl hwf2, if_pos hhigher]
    refine ⟨_, rfl, ?_, ?_⟩
    · unfold findRequest
      rw [find?_updateFirst_eq _ _ _ lr hreq (by simpa using hplr)]
    · unfold findBalance updateBalance
      rw [find?_updateFirst_eq _ _ _ b hbal2 (by simpa using hpb)]
  · unfold process_approval
    simp only [hreq, hwf]
    rw [if_neg (by simp [hgate])]
    rw [if_pos (by trivial)]
    refine ⟨_, rfl, ?_, ?_, ?_, ?_⟩
    · unfold findRequest
      rw [find?_updateFirst_eq _ _ _ lr hreq (by simpa using hplr)]
    · unfold findBalance updateBalance
      rw [find?_updateFirst_eq _ _ _ b hbal2 (by simpa using hpb)]
    · exact higherSteps_updateFirst db.workflows rid aid _ wf rfl rfl hwf2
    · intro hall w hw h1 h2
      have hmem : w ∈ higherSteps (updateFirst
          (fun w => decide (w.leave_request_id = rid ∧ w.approver_id = aid ∧
            w.status = ApprovalStatus.pending))
          (fun w => {w with
            status := if false then ApprovalStatus.approved else ApprovalStatus.rejected,
            comments := comments}) db.workflows) rid wf.approval_level := by
        unfold higherSteps
        rw [List.mem_filter]
        exact ⟨hw, by simp [h1, h2]⟩
      rw [higherSteps_updateFirst db.workflows rid aid _ wf rfl rfl hwf2] at hmem
      have hw0 : w ∈ db.workflows := by
        unfold higherSteps at hmem
        exact (List.mem_filter.mp hmem).1
      exact hall w hw0 h1 h2

/-- Stores for claim C1's witness: a pending one-step chain for approver 2 with
the 5 reserved days in the balance. -/
def dbC1w : DB :=
  ⟨[], [], [⟨1, 1, 2025, 20, 0, 5⟩],
    [⟨1, 1, 1, 739404, 739408, 5, none, RequestStatus.pending⟩],
    [⟨1, 2, 1, ApprovalStatus.pending, none⟩], [], []⟩

/-- Claim C1 witness: approving the only (hence final) step of the concrete
pending request commits the reservation and approves the request. -/
theorem C1_terminal_decisions_witness :
    ∃ db', process_approval dbC1w 1 2 true none 739300 = .ok db' ∧
      findRequest db'.requests 1 =
        some ⟨1, 1, 1, 739404, 739408, 5, none, RequestStatus.approved⟩ ∧
      findBalance db'.balances 1 1 (yearOf 739404) =
        some {(⟨1, 1, 2025, 20, 0, 5⟩ : LeaveBalance) with
          used_days := (0 : ℚ) + 5, pending_days := (5 : ℚ) - 5} :=
  (C1_terminal_decisions dbC1w 1 2 739300 none
    ⟨1, 1, 1, 739404, 739408, 5, none, RequestStatus.pending⟩
    ⟨1, 2, 1, ApprovalStatus.pending, none⟩
    ⟨1, 1, 2025, 20, 0, 5⟩ (by decide) rfl (by decide) (by decide) (by decide)).1
    (by decide)

/-- Specification-side chain for claim C4, following the claim's words: for a
Manager requester a single level-1 HR-admin step (empty if no active HR admin);
otherwise a level-1 step for the direct manager if set, a level-2 step for that
manager's own manager if set, and one step at the next unused level for an
active HR admin exactly when the chargeable days exceed 5 — each absent
referent independently omitting only its own step. -/
def specChainC4 (users : List User) (user : User) (total_days : ℚ) (rid : Nat) :
    List ApprovalWorkflow :=
  if user.role = UserRole.manager then
    match firstActiveHrAdmin users with
    | some hr => [⟨rid, hr.id, 1, ApprovalStatus.pending, none⟩]
    | none => []
  else
    let directStep : List ApprovalWorkflow :=
      match user.manager_id with
      | some mid => [⟨rid, mid, 1, ApprovalStatus.pending, none⟩]
      | none => []
    let grandStep : List ApprovalWorkflow :=
      match user.manager_id.bind (fun mid =>
          (users.find? fun u => decide (u.id = mid)).bind fun m => m.manager_id) with
      | some mmid => [⟨rid, mmid, 2, ApprovalStatus.pending, none⟩]
      | none => []
    let hrStep : List ApprovalWorkflow :=
      if total_days > 5 then
        match firstActiveHrAdmin users with
        | some hr =>
          [⟨rid, hr.id, (directStep ++ grandStep).length + 1, ApprovalStatus.pending, none⟩]
        | none => []
      else []
    directStep ++ grandStep ++ hrStep

theorem buildChain_eq_specChainC4 (users : List User) (user : User) (td : ℚ) (rid : Nat) :
    buildChain users user td rid = specChainC4 users user td rid := by
  unfold buildChain specChainC4
  by_cases hrole : user.role = UserRole.manager
  · rw [if_pos hrole, if_pos hrole]
  · rw [if_neg hrole, if_neg hrole]
    cases hm : user.manager_id with
    | none => simp
    | some mid =>
      cases hfind : users.find? fun u => decide (u.id = mid) with
      | none =>
        simp [hfind]
        split_ifs with htd
        · cases hhr : firstActiveHrAdmin users <;> simp [hhr]
        · simp
      | some m =>
        cases hmm : m.manager_id with
        | none =>
          simp [hfind, hmm]
          split_ifs with htd
          · cases hhr : firstActiveHrAdmin users <;> simp [hhr]
          · simp
        | some mmid =>
          simp [hfind, hmm]
          split_ifs with htd
          · cases hhr : firstActiveHrAdmin users <;> simp [hhr]
          · simp

theorem specChainC4_pending (users : List User) (user : User) (td : ℚ) (rid : Nat) :
    ∀ w ∈ specChainC4 users user td rid, w.status = ApprovalStatus.pending := by
  intro w hw
  simp only [specChainC4] at hw
  split at hw
  · split at hw
    · simp at hw; subst hw; rfl
    · simp at hw
  · simp only [List.mem_append] at hw
    rcases hw with (hw | hw) | hw
    · split at hw
      · simp at hw; subst hw; rfl
      · simp at hw
    · split at hw
      · simp at hw; subst hw; rfl
      · simp at hw
    · split at hw
      · split at hw
        · simp at hw; subst hw; rfl
        · simp at hw
      · simp at hw

/-- Directory for claim C4's examples: employee 1 reports to manager 2, who
reports to manager 3; user 4 is the active HR admin. -/
def usersC4 : List User :=
  [⟨1, UserRole.employee, some 2, true⟩, ⟨2, UserRole.manager, some 3, true⟩,
    ⟨3, UserRole.manager, none, true⟩, ⟨4, UserRole.hrAdmin, none, true⟩]

/-- Claim C4: chain construction produces exactly the claimed shape (proved as
an equivalence with the spec-side `specChainC4`), every created step starts
Pending, and the worked examples hold — the employee with a manager and a
grand-manager gets a 3-level chain (manager, grand-manager, HR admin) for 6
chargeable days and a 2-level chain without the HR-admin step for 3 days. -/
theorem C4_chain_construction :
    (∀ users user td rid, buildChain users user td rid = specChainC4 users user td rid) ∧
    (∀ users user td rid, ∀ w ∈ buildChain users user td rid,
      w.status = ApprovalStatus.pending) ∧
    buildChain usersC4 ⟨1, UserRole.employee, some 2, true⟩ 6 10 =
      [⟨10, 2, 1, ApprovalStatus.pending, none⟩, ⟨10, 3, 2, ApprovalStatus.pending, none⟩,
        ⟨10, 4, 3, ApprovalStatus.pending, none⟩] ∧
    buildChain usersC4 ⟨1, UserRole.employee, some 2, true⟩ 3 10 =
      [⟨10, 2, 1, ApprovalStatus.pending, none⟩, ⟨10, 3, 2, ApprovalStatus.pending, none⟩] := by
  refine ⟨buildChain_eq_specChainC4, ?_, by decide, by decide⟩
  intro users user td rid w hw
  rw [buildChain_eq_specChainC4] at hw
  exact specChainC4_pending users user td rid w hw

/-- Claim C4 witness: the step-stays-pending part applied at the first example
chain's level-1 step. -/
theorem C4_chain_construction_witness :
    (⟨10, 2, 1, ApprovalStatus.pending, none⟩ : ApprovalWorkflow).status =
      ApprovalStatus.pending :=
  C4_chain_construction.2.1 usersC4 ⟨1, UserRole.employee, some 2, true⟩ 6 10
    ⟨10, 2, 1, ApprovalStatus.pending, none⟩ (by decide)

/-- Claim C8: updating a pending request's dates releases the old reservation
and re-reserves the new amount atomically — if the new chargeable-day amount
does not fit the balance once the old reservation is released, the update fails
InsufficientBalance and, the transaction being rolled back, the old reservation
is untouched (an error result carries no new state); on success the balance's
pending days change by exactly (new chargeable days - old chargeable days). -/
theorem C8_update_rereserve (db : DB) (rid uid : Nat) (new_start new_end : Option Nat)
    (new_reason : Option String) (lr : LeaveRequest) (b : LeaveBalance) (ntd : ℚ)
    (hreq : findRequest db.requests rid = some lr)
    (howner : lr.user_id = uid)
    (hpend : lr.status = RequestStatus.pending)
    (hdates : (new_start.isSome || new_end.isSome) = true)
    (horder : new_start.getD lr.start_date ≤ new_end.getD lr.end_date)
    (hcalc : calculate_working_days (new_start.getD lr.start_date)
      (new_end.getD lr.end_date) db.holidays = .ok ntd)
    (hoverlap : check_overlapping_requests db.requests uid (new_start.getD lr.start_date)
      (new_end.getD lr.end_date) (some rid) = false)
    (hbal : findBalance db.balances uid lr.leave_type_id
      (yearOf (new_start.getD lr.start_date)) = some b) :
    (b.total_days - b.used_days - (b.pending_days - lr.total_days) < ntd →
      update_leave_request db rid uid new_start new_end new_reason =
        .error Err.insufficientBalance) ∧
    (ntd ≤ b.total_days - b.used_days - (b.pending_days - lr.total_days) →
      ∃ db', update_leave_request db rid uid new_start new_end new_reason = .ok db' ∧
        findBalance db'.balances uid lr.leave_type_id
            (yearOf (new_start.getD lr.start_date)) =
          some {b with pending_days := b.pending_days - lr.total_days + ntd}) := by
  have hbal2 : List.find? (fun bb => decide (bb.user_id = uid ∧
      bb.leave_type_id = lr.leave_type_id ∧
      bb.year = yearOf (new_start.getD lr.start_date))) db.balances = some b := hbal
  have hpb := List.find?_some hbal2
  constructor
  · intro hover
    unfold update_leave_request
    simp only [hreq]
    rw [if_neg (by simp [howner]), if_neg (by simp [hpend]), if_pos hdates,
      if_neg (by omega)]
    simp only [hcalc]
    rw [if_neg (by simp [hoverlap])]
    simp only [hbal]
    rw [if_pos (by simp only [LeaveBalance.available_days]; exact hover)]
  · intro hfits
    unfold update_leave_request
    simp only [hreq]
    rw [if_neg (by simp [howner]), if_neg (by simp [hpend]), if_pos hdates,
      if_neg (by omega)]
    simp only [hcalc]
    rw [if_neg (by simp [hoverlap])]
    simp only [hbal]
    rw [if_neg (by simp only [LeaveBalance.available_days, not_lt]; exact hfits)]
    refine ⟨_, rfl, ?_⟩
    unfold findBalance updateBalance
    rw [find?_updateFirst_eq _ _ _ b hbal2 (by simpa using hpb)]

/-- Store for claim C8's witness: request 1 (Mon-Fri, 5 working days) is
pending with 5 days reserved; the owner shifts the start to Tuesday, leaving 4
working days. -/
def dbC8w : DB :=
  ⟨[], [], [⟨1, 1, 2025, 20, 0, 5⟩],
    [⟨1, 1, 1, 739404, 739408, 5, none, RequestStatus.pending⟩], [], [], []⟩

/-- Claim C8 witness: the concrete date update succeeds and re-reserves exactly
the new 4-working-day amount in place of the old 5. -/
theorem C8_update_rereserve_witness :
    ∃ db', update_leave_request dbC8w 1 1 (some 739405) none none = .ok db' ∧
      findBalance db'.balances 1 1 (yearOf 739405) =
        some {(⟨1, 1, 2025, 20, 0, 5⟩ : LeaveBalance) with
          pending_days := (5 : ℚ) - 5 + 4} := by
  have hcalc : calculate_working_days 739405 739408 dbC8w.holidays = .ok 4 := by
    rw [calculate_working_days_eq_spec 739405 739408 _ (by decide)]
    have h4 : specWorkingDays 739405 739408 ((dbC8w.holidays).map fun hd => hd.date) = 4 := by
      decide
    rw [h4]; norm_num
  exact (C8_update_rereserve dbC8w 1 1 (some 739405) none none
    ⟨1, 1, 1, 739404, 739408, 5, none, RequestStatus.pending⟩
    ⟨1, 1, 2025, 20, 0, 5⟩ 4 (by decide) rfl rfl (by decide) (by decide) hcalc
    (by decide) (by decide)).2 (by norm_num)

theorem all_updateFirst {α} (P : α → Prop) (p : α → Bool) (f : α → α) (l : List α)
    (hOK : ∀ x ∈ l, P x) (hf : ∀ x, l.find? p = some x → P (f x)) :
    ∀ y ∈ updateFirst p f l, P y := by
  intro y hy
  rcases mem_updateFirst p f l y hy with hmem | ⟨x, hx, rfl⟩
  · exact hOK y hmem
  · exact hf x hx

theorem Inv_process_approval (db : DB) (rid aid : Nat) (approve : Bool)
    (comments : Option String) (today : Nat) (db' : DB) (hInv : Inv db)
    (h : process_approval db rid aid approve comments today = .ok db') : Inv db' := by
  obtain ⟨hB, hR, hQ⟩ := hInv
  unfold process_approval at h
  split at h
  · exact absurd h (by simp)
  · rename_i lr hreq
    have htd : 0 ≤ lr.total_days := hR lr (List.mem_of_find?_eq_some hreq)
    split at h
    · exact absurd h (by simp)
    · rename_i wf hwf
      split at h
      · exact absurd h (by simp)
      · cases approve with
        | false =>
          simp only [reduceIte] at h
          simp only [Except.ok.injEq] at h
          subst h
          refine ⟨?_, ?_, hQ⟩
          · refine all_updateFirst _ _ _ _ hB ?_
            intro x hx
            have hx1 : (0 : ℚ) ≤ x.total_days - x.used_days - x.pending_days :=
              hB x (List.mem_of_find?_eq_some hx)
            show (0 : ℚ) ≤ x.total_days - x.used_days - (x.pending_days - lr.total_days)
            linarith
          · refine all_updateFirst _ _ _ _ hR ?_
            intro x hx
            exact hR x (List.mem_of_find?_eq_some hx)
        | true =>
          simp only [reduceIte] at h
          split at h
          · rename_i hcontra
            exact absurd hcontra (by simp)
          split at h
          · simp only [Except.ok.injEq] at h
            subst h
            refine ⟨?_, ?_, hQ⟩
            · refine all_updateFirst _ _ _ _ hB ?_
              intro x hx
              have hx1 : (0 : ℚ) ≤ x.total_days - x.used_days - x.pending_days :=
                hB x (List.mem_of_find?_eq_some hx)
              show (0 : ℚ) ≤ x.total_days - (x.used_days + lr.total_days) -
                (x.pending_days - lr.total_days)
              linarith
            · refine all_updateFirst _ _ _ _ hR ?_
              intro x hx
              exact hR x (List.mem_of_find?_eq_some hx)
          · simp only [Except.ok.injEq] at h
            subst h
            exact ⟨hB, hR, hQ⟩

theorem Inv_cancel_leave_request (db : DB) (rid uid today : Nat) (db' : DB) (hInv : Inv db)
    (h : cancel_leave_request db rid uid today = .ok db') : Inv db' := by
  obtain ⟨hB, hR, hQ⟩ := hInv
  unfold cancel_leave_request at h
  split at h
  · exact absurd h (by simp)
  · rename_i lr hreq
    have htd : 0 ≤ lr.total_days := hR lr (List.mem_of_find?_eq_some hreq)
    split at h
    · exact absurd h (by simp)
    · split at h
      · exact absurd h (by simp)
      · split at h
        · exact absurd h (by simp)
        · simp only [Except.ok.injEq] at h
          subst h
          refine ⟨?_, ?_, hQ⟩
          · refine all_updateFirst _ _ _ _ hB ?_
            intro x hx
            have hx1 : (0 : ℚ) ≤ x.total_days - x.used_days - x.pending_days :=
              hB x (List.mem_of_find?_eq_some hx)
            cases hlrst : lr.status with
            | pending =>
              show (0 : ℚ) ≤ x.total_days - x.used_days - (x.pending_days - lr.total_days)
              linarith
            | approved =>
              show (0 : ℚ) ≤ x.total_days - (x.used_days - lr.total_days) - x.pending_days
              linarith
            | rejected => exact hx1
            | cancelled => exact hx1
          · refine all_updateFirst _ _ _ _ hR ?_
            intro x hx
            exact hR x (List.mem_of_find?_eq_some hx)

theorem Inv_update_leave_request (db : DB) (rid uid : Nat)
    (new_start new_end : Option Nat) (new_reason : Option String) (db' : DB)
    (hInv : Inv db)
    (h : update_leave_request db rid uid new_start new_end new_reason = .ok db') :
    Inv db' := by
  obtain ⟨hB, hR, hQ⟩ := hInv
  unfold update_leave_request at h
  split at h
  · exact absurd h (by simp)
  · rename_i lr hreq
    split at h
    · exact absurd h (by simp)
    · split at h
      · exact absurd h (by simp)
      · split at h
        · simp only [] at h
          split at h
          · exact absurd h (by simp)
          · split at h
            · exact absurd h (by simp)
            · rename_i ntd hcalc
              have hntd : (0 : ℚ) ≤ ntd :=
                calculate_working_days_nonneg _ _ _ _ hcalc
              split at h
              · exact absurd h (by simp)
              · split at h
                · rename_i balance hbalfind
                  split at h
                  · exact absurd h (by simp)
                  · rename_i hfits
                    simp only [Except.ok.injEq] at h
                    subst h
                    refine ⟨?_, ?_, hQ⟩
                    · refine all_updateFirst _ _ _ _ hB ?_
                      intro x hx
                      obtain rfl := Option.some.inj (hx.symm.trans hbalfind)
                      have hfits2 : ¬(x.total_days - x.used_days -
                          (x.pending_days - lr.total_days) < ntd) := hfits
                      show (0 : ℚ) ≤ x.total_days - x.used_days -
                        (x.pending_days - lr.total_days + ntd)
                      have hle := not_lt.mp hfits2
                      linarith
                    · refine all_updateFirst _ _ _ _ hR ?_
                      intro x hx
                      show (0 : ℚ) ≤ ntd
                      exact hntd
                · simp only [Except.ok.injEq] at h
                  subst h
                  refine ⟨hB, ?_, hQ⟩
                  refine all_updateFirst _ _ _ _ hR ?_
                  intro x hx
                  show (0 : ℚ) ≤ ntd
                  exact hntd
        · split at h
          · simp only [Except.ok.injEq] at h
            subst h
            refine ⟨hB, ?_, hQ⟩
            refine all_updateFirst _ _ _ _ hR ?_
            intro x hx
            exact hR x (List.mem_of_find?_eq_some hx)
          · simp only [Except.ok.injEq] at h
            subst h
            exact ⟨hB, hR, hQ⟩

theorem create_approval_workflow_fields (db : DB) (lr : LeaveRequest) :
    (create_approval_workflow db lr).balances = db.balances ∧
    (create_approval_workflow db lr).requests = db.requests ∧
    (create_approval_workflow db lr).leave_types = db.leave_types := by
  unfold create_approval_workflow
  cases db.users.find? fun u => decide (u.id = lr.user_id) <;> simp

theorem Inv_create_leave_request (db : DB) (uid tid s e : Nat) (reason : Option String)
    (today nid : Nat) (db' : DB) (hInv : Inv db)
    (h : create_leave_request db uid tid s e reason today nid = .ok db') : Inv db' := by
  obtain ⟨hB, hR, hQ⟩ := hInv
  unfold create_leave_request at h
  split at h
  · exact absurd h (by simp)
  · split at h
    · exact absurd h (by simp)
    · split at h
      · exact absurd h (by simp)
      · rename_i td hcalc
        have htd : (0 : ℚ) ≤ td := calculate_working_days_nonneg _ _ _ _ hcalc
        split at h
        · exact absurd h (by simp)
        · split at h
          · exact absurd h (by simp)
          · split at h
            · exact absurd h (by simp)
            · rename_i balance hbalfind
              split at h
              · exact absurd h (by simp)
              · rename_i hfits
                simp only [Except.ok.injEq] at h
                subst h
                refine ⟨?_, ?_, ?_⟩
                · intro bb hbb
                  rw [(create_approval_workflow_fields _ _).1] at hbb
                  rcases mem_updateFirst _ _ _ bb hbb with hmem | ⟨x, hx, rfl⟩
                  · exact hB bb hmem
                  · obtain rfl := Option.some.inj (hx.symm.trans hbalfind)
                    have hfits2 : ¬(x.total_days - x.used_days - x.pending_days < td) :=
                      hfits
                    show (0 : ℚ) ≤ x.total_days - x.used_days - (x.pending_days + td)
                    have hle := not_lt.mp hfits2
                    linarith
                · intro r hr
                  rw [(create_approval_workflow_fields _ _).2.1] at hr
                  rcases List.mem_append.mp hr with h1 | h1
                  · exact hR r h1
                  · simp only [List.mem_singleton] at h1
                    subst h1
                    exact htd
                · intro t ht
                  rw [(create_approval_workflow_fields _ _).2.2] at ht
                  exact hQ t ht

theorem Inv_initialize_leave_balances (db : DB) (year : Nat) (hInv : Inv db) :
    Inv (initialize_leave_balances db year) := by
  obtain ⟨hB, hR, hQ⟩ := hInv
  refine ⟨?_, hR, hQ⟩
  intro bb hbb
  simp only [initialize_leave_balances] at hbb
  rcases List.mem_append.mp hbb with h1 | h1
  · exact hB bb h1
  · rw [List.mem_flatMap] at h1
    obtain ⟨user, _, h2⟩ := h1
    rw [List.mem_filterMap] at h2
    obtain ⟨lt, hlt, h3⟩ := h2
    have hq : 0 ≤ lt.annual_quota := hQ lt (List.mem_of_mem_filter hlt)
    cases hfind : findBalance db.balances user.id lt.id year with
    | some old => rw [hfind] at h3; exact absurd h3 (by simp)
    | none =>
      rw [hfind] at h3
      simp only [Option.some.injEq] at h3
      subst h3
      show (0 : ℚ) ≤ lt.annual_quota - 0 - 0
      linarith

/-- Claim C2: for every balance record available = total - used - reserved by
definition, and each of the system's operations (create, update, cancel,
approve/reject decision, balance initialization), run from a state satisfying
the invariant, yields a state in which every balance record has available ≥ 0
and the invariant still holds — a mutation that would drive available negative
is rejected (the operation returns an error, which carries no new state, before
any violating write is committed). `Inv` also carries the two boundary facts
the code enforces elsewhere: every stored request has a non-negative
chargeable-day count (it is always a working-day count), and every leave type
has a non-negative quota (`annual_quota: float = Field(gt=0)`). -/
theorem C2_balance_invariant :
    (∀ b : LeaveBalance, b.available_days = b.total_days - b.used_days - b.pending_days) ∧
    (∀ db uid tid s e reason today nid db', Inv db →
      create_leave_request db uid tid s e reason today nid = .ok db' →
      (∀ bb ∈ db'.balances, 0 ≤ bb.available_days) ∧ Inv db') ∧
    (∀ db rid uid ns ne nr db', Inv db →
      update_leave_request db rid uid ns ne nr = .ok db' →
      (∀ bb ∈ db'.balances, 0 ≤ bb.available_days) ∧ Inv db') ∧
    (∀ db rid uid today db', Inv db →
      cancel_leave_request db rid uid today = .ok db' →
      (∀ bb ∈ db'.balances, 0 ≤ bb.available_days) ∧ Inv db') ∧
    (∀ db rid aid approve comments today db', Inv db →
      process_approval db rid aid approve comments today = .ok db' →
      (∀ bb ∈ db'.balances, 0 ≤ bb.available_days) ∧ Inv db') ∧
    (∀ db year, Inv db →
      (∀ bb ∈ (initialize_leave_balances db year).balances, 0 ≤ bb.available_days) ∧
      Inv (initialize_leave_balances db year)) := by
  refine ⟨fun b => rfl, ?_, ?_, ?_, ?_, ?_⟩
  · intro db uid tid s e reason today nid db' hInv h
    have hI := Inv_create_leave_request db uid tid s e reason today nid db' hInv h
    exact ⟨hI.1, hI⟩
  · intro db rid uid ns ne nr db' hInv h
    have hI := Inv_update_leave_request db rid uid ns ne nr db' hInv h
    exact ⟨hI.1, hI⟩
  · intro db rid uid today db' hInv h
    have hI := Inv_cancel_leave_request db rid uid today db' hInv h
    exact ⟨hI.1, hI⟩
  · intro db rid aid approve comments today db' hInv h
    have hI := Inv_process_approval db rid aid approve comments today db' hInv h
    exact ⟨hI.1, hI⟩
  · intro db year hInv
    have hI := Inv_initialize_leave_balances db year hInv
    exact ⟨hI.1, hI⟩

/-- Store for claim C2's witness: a valid state with 5 of 20 days reserved for
the pending request. -/
def dbC2w : DB :=
  ⟨[], [], [⟨1, 1, 2025, 20, 0, 5⟩],
    [⟨1, 1, 1, 739404, 739408, 5, none, RequestStatus.pending⟩], [], [], []⟩

/-- The state after the owner cancels request 1 in `dbC2w`. -/
def dbC2res : DB :=
  ⟨[], [], [⟨1, 1, 2025, 20, 0, 5 - 5⟩],
    [⟨1, 1, 1, 739404, 739408, 5, none, RequestStatus.cancelled⟩], [], [], []⟩

/-- Claim C2 witness: the concrete cancel releases the reservation and the
resulting state keeps every balance's availability non-negative. -/
theorem C2_balance_invariant_witness :
    (∀ bb ∈ dbC2res.balances, 0 ≤ bb.available_days) ∧ Inv dbC2res :=
  C2_balance_invariant.2.2.2.1 dbC2w 1 1 739300 dbC2res
    (by
      refine ⟨?_, ?_, ?_⟩ <;> intro x hx <;> fin_cases hx <;>
        norm_num [LeaveBalance.available_days])
    rfl

end ELMS
